import Mathlib

/-!
Shallow embedding of `daq_slices_sweep.py` (DS-20k G4DS time-slice processing
with parameter sweeping).

The script's own computation is orchestration: it sequences external signal
primitives (`find_waveform_gates`, `add_noise_pes`, `create_veto_waveforms`,
`find_zle_intervals`, `sum_zles`, `find_hits`, `get_pes_outside_gates`,
`find_effective_zles_hits`, gain lookups) and external record I/O
(`G4DSBinaryReader`, `SliceWriter`).  The embedding therefore models each
external primitive's *observable outcome* as input data (which records it
returns, or which exception it raises), and translates the script's own
control flow, bookkeeping and arithmetic — the `zle_id` offsetting, the
per-gate `try`/`except` structure, the gain normalization, the final sort,
the sweep loop, the output-path derivation and the configuration table —
faithfully from the source.
-/

namespace DaqSlices

/-- A ZLE interval record.  Of its fields only `integral` is touched by the
script (line 97 divides it by the gain constant); all others pass through
unchanged and are omitted. -/
structure Zle where
  integral : ℚ
deriving DecidableEq, Repr

/-- A hit record.  The script touches `zle_id` (offset at line 72, sort key at
line 100), `sample` (sort key), and `integral` / `max` (divided by gain
constants at lines 98–99). -/
structure Hit where
  zle_id   : ℕ
  sample   : ℕ
  integral : ℚ
  max      : ℚ
deriving DecidableEq, Repr

/-- Gain constants returned by the external lookups `get_zle_gain_veto()`
(`integral_mean`) and `get_hit_gain_veto()` (`integral_mean`, `max_mean`),
used at lines 97–99. -/
structure Gains where
  zle_integral_mean : ℚ
  hit_integral_mean : ℚ
  hit_max_mean      : ℚ
deriving DecidableEq, Repr

/-- Observable outcome of the `sum_zles` call at line 63: it returns normally,
raises `ValueError("ZLE interval too short ...")` (caught at lines 64–67), or
raises anything else (re-raised at line 69 and caught by the outer per-gate
handler at line 80). -/
inductive SumOutcome where
  | ok
  | zleTooShort
  | otherError
deriving DecidableEq, Repr

/-- Observable behaviour of the external primitives on one gate of the loop at
lines 54–82.  `earlyFail` models `create_veto_waveforms` / `find_zle_intervals`
(lines 58–59) raising; `zles` is the `find_zle_intervals` result `z`;
`sumOutcome` the behaviour of `sum_zles`; `hitsResult` the `find_hits` result
`h` with gate-local `zle_id` values (`none` models `find_hits` raising).
`downsample_summed_wfs` (line 78) only writes the waveform fields `top_wf` /
`bot_wf`, which no claim mentions, so it is not modelled. -/
structure GateData where
  earlyFail  : Bool := false
  zles       : List Zle := []
  sumOutcome : SumOutcome := .ok
  hitsResult : Option (List Hit) := some []
deriving DecidableEq, Repr

/-- Observable behaviour of the external primitives on one input event.
`preGateFail` models `find_waveform_gates` / `add_noise_pes` /
`add_daq_jitter` (lines 50–52) raising — these run outside every `try` block.
`outside` is the `find_effective_zles_hits` result at line 86 (`none` models
an exception in the outside-gates block, caught at lines 90–91). -/
structure EventData where
  preGateFail : Bool := false
  gates       : List GateData := []
  outside     : Option (List Zle × List Hit) := none
deriving DecidableEq, Repr

/-- Value of `sum(len(_z) for _z in zles)` (lines 72 and 87): total number of
ZLE records accumulated so far, over the list of per-gate record batches. -/
def totalZleLen (zss : List (List Zle)) : ℕ :=
  (zss.map List.length).sum

/-- The `h['zle_id'] += offset` statement (lines 72 and 87) applied to a batch
of hit records. -/
def offsetHits (off : ℕ) (hs : List Hit) : List Hit :=
  hs.map fun h => { h with zle_id := h.zle_id + off }

/-- Running lists `zles` and `hits` of per-gate record batches (initialized
empty at line 48, appended to at lines 73–74 and 88–89). -/
structure Acc where
  zles : List (List Zle)
  hits : List (List Hit)
deriving DecidableEq, Repr

/-- One iteration of the gate loop (lines 54–82), acting on the running
lists.  Control flow from the source: an exception before the inner `try`
skips the gate via the outer handler (lines 80–82); `sum_zles` raising
"ZLE interval too short" executes `continue` (line 67), which skips the rest
of the loop body — including `find_hits` and both appends; any other
`sum_zles` exception is re-raised (line 69) into the outer handler;
`find_hits` raising reaches the outer handler before any append; otherwise
the offset hits and the gate's ZLEs are appended (lines 72–74). -/
def processGate (acc : Acc) (g : GateData) : Acc :=
  if g.earlyFail then acc
  else
    match g.sumOutcome with
    | .zleTooShort => acc
    | .otherError => acc
    | .ok =>
      match g.hitsResult with
      | none => acc
      | some h =>
        { zles := acc.zles ++ [g.zles]
          hits := acc.hits ++ [offsetHits (totalZleLen acc.zles) h] }

/-- The outside-gates block (lines 84–91): on success the offset hits and the
ZLE batch are appended; an exception leaves the running lists unchanged. -/
def processOutside (acc : Acc) (outside : Option (List Zle × List Hit)) : Acc :=
  match outside with
  | none => acc
  | some (z, h) =>
    { zles := acc.zles ++ [z]
      hits := acc.hits ++ [offsetHits (totalZleLen acc.zles) h] }

/-- Running lists after the whole accumulation phase of `process_event`
(gate loop, then outside-gates block). -/
def eventAcc (ev : EventData) : Acc :=
  processOutside (ev.gates.foldl processGate ⟨[], []⟩) ev.outside

/-- Normalization of one ZLE record (line 97):
`out['zles']['integral'] /= get_zle_gain_veto()['integral_mean']`. -/
def normZle (g : Gains) (z : Zle) : Zle :=
  { z with integral := z.integral / g.zle_integral_mean }

/-- Normalization of one hit record (lines 98–99): `integral` and `max` are
each divided by their own gain mean. -/
def normHit (g : Gains) (h : Hit) : Hit :=
  { h with integral := h.integral / g.hit_integral_mean
           max      := h.max / g.hit_max_mean }

/-- Sort key order of `out['hits'].sort(order=['zle_id', 'sample'])`
(line 100): lexicographic on `(zle_id, sample)`. -/
def hitKeyLE (a b : Hit) : Prop :=
  a.zle_id < b.zle_id ∨ (a.zle_id = b.zle_id ∧ a.sample ≤ b.sample)

instance : DecidableRel hitKeyLE := fun a b => by
  unfold hitKeyLE
  infer_instance

instance : IsTrans Hit hitKeyLE := by
  constructor
  intro a b c hab hbc
  rcases hab with h1 | ⟨h1, h2⟩ <;> rcases hbc with h3 | ⟨h3, h4⟩ <;> unfold hitKeyLE <;> omega

instance : IsTotal Hit hitKeyLE := by
  constructor
  intro a b
  unfold hitKeyLE
  omega

/-- The output event fields written at lines 95–100. -/
structure OutEvent where
  zles : List Zle
  hits : List Hit
deriving DecidableEq, Repr

/-- The function `process_event(i, ev, out)` (lines 35–104).  `Except.error`
models an exception escaping `process_event` (possible only from the
pre-gate-loop lines 50–52, which no handler covers); `.ok (some o)` models
`return True` with the fields written into `out`; `.ok none` models
`return False`.  The final sort of line 100 is modelled with the stable
`List.insertionSort` on the same `(zle_id, sample)` key order. -/
def process_event (g : Gains) (ev : EventData) : Except Unit (Option OutEvent) :=
  if ev.preGateFail then .error ()
  else
    if (eventAcc ev).hits.length > 0 ∧ (eventAcc ev).zles.length > 0 then
      .ok (some
        { zles := ((eventAcc ev).zles.flatten).map (normZle g)
          hits := List.insertionSort hitKeyLE (((eventAcc ev).hits.flatten).map (normHit g)) })
    else
      .ok none

/-- Result of `process_event` projected to the caller's view: the output
event written by `fout.write(out)` when it returned `True`, `none`
otherwise. -/
def successOut (g : Gains) (ev : EventData) : Option OutEvent :=
  match process_event g ev with
  | .ok (some o) => some o
  | _ => none

/-- Observable state of the event loop of `process_with_params`
(lines 171–179): the events written so far, the `valid_events` counter, and
how many input events were consumed from the reader. -/
structure EvResult where
  written  : List OutEvent
  valid    : ℕ
  consumed : ℕ
deriving DecidableEq, Repr

/-- The event loop `for i, ev in enumerate(fin): ...` (lines 172–179).  Each
event is fed to `process_event`; on `True` the output event is written and
`valid_events` incremented; on `False` it is skipped; an exception escaping
`process_event` aborts the loop (`Except.error`) — the events already written
stay written, the remaining input events are never consumed. -/
def runEvents (g : Gains) : List EventData → Except EvResult EvResult
  | [] => .ok ⟨[], 0, 0⟩
  | ev :: rest =>
    match process_event g ev with
    | .error _ => .error ⟨[], 0, 1⟩
    | .ok r =>
      let w : List OutEvent := match r with | none => [] | some o => [o]
      match runEvents g rest with
      | .ok res => .ok ⟨w ++ res.written, w.length + res.valid, res.consumed + 1⟩
      | .error res => .error ⟨w ++ res.written, w.length + res.valid, res.consumed + 1⟩

/-- Observable outcome of one sweep-value iteration of `process_with_params`
(lines 158–194). -/
structure PassResult where
  written        : List OutEvent
  validEvents    : ℕ
  processedCount : ℕ
  completed      : Bool
  readerClosed   : Bool
  writerClosed   : Bool
  fileExists     : Bool
deriving DecidableEq, Repr

/-- One sweep-value iteration of the loop at lines 158–194, after the reader
and writer were opened (lines 168–169; opening the writer creates the output
file).  On normal completion the `fin.close()` / `fout.close()` calls at
lines 181–182 run, and the zero-valid-events branch (lines 187–190) deletes
the output file.  If an exception escapes the event loop, control jumps to
the `except` handler at lines 192–194: the close calls at lines 181–182 are
inside the `try` and are skipped (there is no `finally` and no `with`), the
deletion branch is skipped too, so the partially written file remains. -/
def runPass (g : Gains) (events : List EventData) : PassResult :=
  match runEvents g events with
  | .ok r =>
    { written := r.written, validEvents := r.valid, processedCount := r.consumed
      completed := true, readerClosed := true, writerClosed := true
      fileExists := decide (r.valid > 0) }
  | .error r =>
    { written := r.written, validEvents := r.valid, processedCount := r.consumed
      completed := false, readerClosed := false, writerClosed := false
      fileExists := true }

/-- Index of the last dot in a list of characters, if any. -/
def lastDotPos (cs : List Char) : Option ℕ :=
  ((List.range cs.length).filter fun i => cs.getD i ' ' = '.').getLast?

/-- The `Path(...).suffix` of a file name (`pathlib`): the part of the name
from its last dot, provided that dot is neither the first nor the last
character; empty otherwise.  Used at line 155. -/
def pySuffix (name : String) : String :=
  match lastDotPos name.toList with
  | some i => if 0 < i ∧ i + 1 < name.toList.length then ⟨name.toList.drop i⟩ else ""
  | none => ""

/-- The `Path(...).stem` of a file name (`pathlib`): the name with its
`pySuffix` removed.  Used at line 154. -/
def pyStem (name : String) : String :=
  match lastDotPos name.toList with
  | some i => if 0 < i ∧ i + 1 < name.toList.length then ⟨name.toList.take i⟩ else name
  | none => name

/-- A Python value flowing through the sweep machinery: the sweep values built
in `main` are `float`s (line 267) except for `noise_spectrum`, whose values
are strings (line 265).  Floats are modelled as exact rationals: every value
the development evaluates is a small integer, where IEEE-754 doubles are
exact. -/
inductive PyVal where
  | float (q : ℚ)
  | str (s : String)
deriving DecidableEq, Repr

/-- Python `str()` / f-string formatting of a float, modelled on the integral
floats this development evaluates: `str(5.0) = "5.0"`.  (Non-integral floats
use IEEE-754 shortest round-trip formatting, which no theorem below needs:
every float formatted here is integral.) -/
def pyFloatRepr (q : ℚ) : String :=
  if q.den = 1 then toString q.num ++ ".0" else toString q.num ++ "/" ++ toString q.den

/-- Formatting of a value inside the f-string at line 164. -/
def pyValStr (v : PyVal) : String :=
  match v with
  | .float q => pyFloatRepr q
  | .str s => s

/-- The output path built at line 164:
`output_dir / f"{base_name}_{section}_{param}_{value}{extension}"`, with
`base_name = Path(output_base).stem` and `extension = Path(output_base).suffix`
(lines 154–155).  The directory component is untouched by the script and is
left out; `base` is the file-name component of `output_base`. -/
def derive_output_path (base sect param : String) (value : PyVal) : String :=
  pyStem base ++ "_" ++ sect ++ "_" ++ param ++ "_" ++ pyValStr value ++ pySuffix base

/-- Value of a decimal digit string, as a natural number. -/
def digitsToNat (cs : List Char) : ℕ :=
  cs.foldl (fun n c => 10 * n + (c.toNat - '0'.toNat)) 0

/-- Python `float(s)` on a plain decimal literal (optional sign, integer part,
optional fractional part), modelled exactly over ℚ.  Literals Python would
reject yield `none` (the script would raise there, terminating the run before
any behaviour the claims describe). -/
def pyParseFloat (s : String) : Option ℚ :=
  let cs := s.toList
  let signed : Bool × List Char :=
    match cs with
    | '-' :: t => (true, t)
    | '+' :: t => (false, t)
    | _ => (false, cs)
  let intPart := signed.2.takeWhile Char.isDigit
  let rest := signed.2.dropWhile Char.isDigit
  let mag : Option ℚ :=
    match rest with
    | [] => if intPart.isEmpty then none else some (digitsToNat intPart : ℚ)
    | '.' :: frac =>
      if frac.all Char.isDigit ∧ ¬(intPart.isEmpty ∧ frac.isEmpty) then
        some ((digitsToNat intPart : ℚ) + (digitsToNat frac : ℚ) / (10 : ℚ) ^ frac.length)
      else none
    | _ => none
  mag.map fun q => if signed.1 then -q else q

/-- Python `str.split(',')` over the character list of a string. -/
def splitCommaChars : List Char → List (List Char)
  | [] => [[]]
  | c :: cs =>
    let r := splitCommaChars cs
    if c = ',' then [] :: r
    else (c :: r.headD []) :: r.tail

/-- Python `s.split(',')` giving strings back. -/
def pySplitComma (s : String) : List String :=
  (splitCommaChars s.toList).map fun cs => (⟨cs⟩ : String)

/-- Python `str.strip()`: leading and trailing whitespace removed. -/
def pyStrip (s : String) : String :=
  ⟨((s.toList.dropWhile Char.isWhitespace).reverse.dropWhile Char.isWhitespace).reverse⟩

/-- Construction of the sweep value list in `main` (lines 263–267):
`noise_spectrum` values stay strings, every other parameter's tokens go
through `float`. -/
def parseSweepValues (param : String) (raw : String) : List PyVal :=
  if param = "noise_spectrum" then
    (pySplitComma raw).map fun x => .str (pyStrip x)
  else
    (pySplitComma raw).map fun x => .float ((pyParseFloat (pyStrip x)).getD 0)

/-- The `param_mapping` dictionary of `main` (lines 246–257), as an
association list in its insertion order. -/
def param_mapping : List (String × String × String) :=
  [("snr", "daq", "snr"),
   ("sampling", "daq", "sampling"),
   ("jitter", "daq", "jitter"),
   ("noise_spectrum", "daq", "noise_spectrum"),
   ("dcr", "sipm", "dcr"),
   ("tau", "sipm", "tau"),
   ("pre_threshold", "zle", "pre_threshold"),
   ("post_threshold", "zle", "post_threshold"),
   ("pre_trigger", "zle", "pre_trigger"),
   ("post_trigger", "zle", "post_trigger")]

/-- Membership test `param_name in param_mapping` plus the lookup
`param_mapping[param_name]` (lines 261–262). -/
def lookupMapping (name : String) : Option (String × String) :=
  (param_mapping.find? fun e => e.1 == name).map (·.2)

/-- Iteration order of `kwargs.items()` in `main` (line 260), restricted to
the sweep flags.  `kwargs` is `vars(parser.parse_args(...))` minus the popped
`seeds`, `input_path` and `output_base` entries; `argparse` initializes the
namespace attribute of every non-`SUPPRESS` argument in `add_argument` order
(lines 217–226), and a CPython dict iterates in insertion order, so the sweep
flags appear in the order they were added to the parser — with
`noise_spectrum` last, unlike in `param_mapping`.  (`start` / `stop` use
`SUPPRESS` and are absent unless supplied; they are in no case sweep flags
and fall through the `param_name in param_mapping` test.) -/
def sweepArgOrder : List String :=
  ["snr", "sampling", "jitter", "dcr", "tau",
   "pre_threshold", "post_threshold", "pre_trigger", "post_trigger",
   "noise_spectrum"]

/-- The scan of `main`'s loop (lines 260–270) over an items list: the first
entry whose value is not `None` and whose name is in `param_mapping` wins;
the loop then runs one sweep and returns. -/
def findSweepAux : List (String × Option String) → Option (String × String × String)
  | [] => none
  | (name, val) :: rest =>
    match val, lookupMapping name with
    | some v, some sp => some (sp.1, sp.2, v)
    | _, _ => findSweepAux rest

/-- The sweep `main` decides to run, given which sweep flags were supplied on
the command line: `some (section, param, values)` for the single sweep that is
executed, `none` when no sweep flag was supplied (lines 259–273; the `none`
case falls through to the default `('daq', 'snr', [current configured value])`
invocation at line 273). -/
def mainSelect (supplied : String → Option String) :
    Option (String × String × List PyVal) :=
  match findSweepAux (sweepArgOrder.map fun n => (n, supplied n)) with
  | some (sec, par, raw) => some (sec, par, parseSweepValues par raw)
  | none => none

/-- Order of the sweep flags as the specification enumerates them ("the
enumerated parameter-mapping order"): the insertion order of `param_mapping`,
with `noise_spectrum` fourth.  Stated from the spec's words, for comparison
with the source's `sweepArgOrder`. -/
def claimParamOrder : List String :=
  ["snr", "sampling", "jitter", "noise_spectrum", "dcr", "tau",
   "pre_threshold", "post_threshold", "pre_trigger", "post_trigger"]

/-- Sweep selection as the specification describes it: first supplied flag in
`claimParamOrder` wins.  Stated from the spec's words, for comparison with
`mainSelect`. -/
def claimOrderSelect (supplied : String → Option String) :
    Option (String × String × String) :=
  findSweepAux (claimParamOrder.map fun n => (n, supplied n))

/-- A value stored in the electronics configuration: `float`, `int` or `str`,
matching the three conversions `update_config_parameter` applies. -/
inductive CfgVal where
  | f (q : ℚ)
  | i (n : ℤ)
  | s (v : String)
deriving DecidableEq, Repr

/-- The `elec_cfg` key-value store, observed through `get`: a map from dotted
keys to values. -/
def Config : Type := String → Option CfgVal

/-- The external `elec_cfg.set(key, value)`: afterwards `get` returns the new
value at `key` and is unchanged elsewhere. -/
def Config.set (c : Config) (k : String) (v : CfgVal) : Config :=
  fun q => if q = k then some v else c q

/-- The unit constants `nu.MHz`, `nu.ns`, `nu.Hz` imported from `dsutils`
(external); the script only multiplies by them. -/
structure Units where
  MHz : ℚ
  ns  : ℚ
  Hz  : ℚ
deriving DecidableEq, Repr

/-- Python `float(value)` as applied at lines 117–131: the sweep values are
floats already (or numeric strings, parsed like `float` literals). -/
def pyFloat (v : PyVal) : ℚ :=
  match v with
  | .float q => q
  | .str s => (pyParseFloat s).getD 0

/-- Python `int(value)` on a float (lines 133): truncation toward zero. -/
def pyIntOfFloat (q : ℚ) : ℤ :=
  q.num.tdiv q.den

/-- Python `int(value)` as applied at line 133. -/
def pyInt (v : PyVal) : ℤ :=
  match v with
  | .float q => pyIntOfFloat q
  | .str s => pyIntOfFloat ((pyParseFloat s).getD 0)

/-- Python `str(value)` as applied at line 123. -/
def pyStr (v : PyVal) : String :=
  match v with
  | .float q => pyFloatRepr q
  | .str s => s

/-- The function `update_config_parameter(section, param, value)`
(lines 106–133), translated branch by branch.  The `zle` branch of the source
writes the key with an f-string `f"zle.{param}"`, reproduced as string
concatenation. -/
def update_config_parameter (u : Units) (sect param : String) (value : PyVal)
    (cfg : Config) : Config :=
  if sect = "daq" then
    if param = "snr" then cfg.set "daq.snr" (.f (pyFloat value))
    else if param = "sampling" then cfg.set "daq.sampling" (.f (pyFloat value * u.MHz))
    else if param = "jitter" then cfg.set "daq.jitter" (.f (pyFloat value * u.ns))
    else if param = "noise_spectrum" then cfg.set "daq.noise_spectrum" (.s (pyStr value))
    else cfg
  else if sect = "sipm" then
    if param = "dcr" then cfg.set "sipm.dcr" (.f (pyFloat value * u.Hz))
    else if param = "tau" then cfg.set "sipm.tau" (.f (pyFloat value * u.ns))
    else cfg
  else if sect = "zle" then
    if param = "pre_threshold" ∨ param = "post_threshold" then
      cfg.set ("zle." ++ param) (.f (pyFloat value))
    else if param = "pre_trigger" ∨ param = "post_trigger" then
      cfg.set ("zle." ++ param) (.i (pyInt value))
    else cfg
  else cfg

/-- The fixed enumerated table the specification describes for
`update_config_parameter`: each known `(section, parameter)` pair with its
target type and unit scale.  Stated from the spec's words, for comparison
with the source translation above. -/
def configTable (u : Units) : List ((String × String) × (PyVal → CfgVal)) :=
  [(("daq", "snr"), fun v => .f (pyFloat v)),
   (("daq", "sampling"), fun v => .f (pyFloat v * u.MHz)),
   (("daq", "jitter"), fun v => .f (pyFloat v * u.ns)),
   (("daq", "noise_spectrum"), fun v => .s (pyStr v)),
   (("sipm", "dcr"), fun v => .f (pyFloat v * u.Hz)),
   (("sipm", "tau"), fun v => .f (pyFloat v * u.ns)),
   (("zle", "pre_threshold"), fun v => .f (pyFloat v)),
   (("zle", "post_threshold"), fun v => .f (pyFloat v)),
   (("zle", "pre_trigger"), fun v => .i (pyInt v)),
   (("zle", "post_trigger"), fun v => .i (pyInt v))]

/-- Lookup of a `(section, parameter)` pair in the enumerated table. -/
def findConv (sect param : String) :
    List ((String × String) × (PyVal → CfgVal)) → Option (PyVal → CfgVal)
  | [] => none
  | e :: rest =>
    if sect = e.1.1 ∧ param = e.1.2 then some e.2 else findConv sect param rest

/-- Table-driven update as the specification describes it: a known pair sets
exactly the dotted key `section.parameter` to the converted, scaled value; an
unknown pair changes nothing. -/
def updateBySpecTable (u : Units) (sect param : String) (value : PyVal)
    (cfg : Config) : Config :=
  match findConv sect param (configTable u) with
  | some conv => cfg.set (sect ++ "." ++ param) (conv value)
  | none => cfg

/-! ## Shared lemmas about the embedded pipeline -/

/-- Characterization of a `True` return of `process_event`: the output fields
it writes are the concatenated normalized ZLEs and the sorted normalized
hits. -/
lemma process_event_some (g : Gains) (ev : EventData) (o : OutEvent)
    (h : process_event g ev = .ok (some o)) :
    o.zles = ((eventAcc ev).zles.flatten).map (normZle g) ∧
    o.hits = List.insertionSort hitKeyLE (((eventAcc ev).hits.flatten).map (normHit g)) := by
  unfold process_event at h
  split at h
  · exact absurd h (by simp)
  · split at h
    · rw [Except.ok.injEq, Option.some.injEq] at h
      rw [← h]
      exact ⟨rfl, rfl⟩
    · exact absurd h (by simp)

/-- Characterization of the boolean result of `process_event` when no
exception occurs: `True` exactly when the running `hits` and `zles` lists are
both non-empty (line 94). -/
lemma process_event_ok_iff (g : Gains) (ev : EventData)
    (hpre : ev.preGateFail = false) :
    (∃ o, process_event g ev = .ok (some o)) ↔
      ((eventAcc ev).hits ≠ [] ∧ (eventAcc ev).zles ≠ []) := by
  unfold process_event
  rw [if_neg (by simp [hpre])]
  by_cases hc : (eventAcc ev).hits.length > 0 ∧ (eventAcc ev).zles.length > 0
  · rw [if_pos hc]
    constructor
    · intro _
      exact ⟨List.length_pos.mp hc.1, List.length_pos.mp hc.2⟩
    · intro _
      exact ⟨_, rfl⟩
  · rw [if_neg hc]
    constructor
    · rintro ⟨o, ho⟩
      exact absurd ho (by simp)
    · intro hne
      exact absurd ⟨List.length_pos.mpr hne.1, List.length_pos.mpr hne.2⟩ hc

/-- On a pass that completes, the written events are exactly the successful
outputs of the input events, in order. -/
lemma runEvents_ok_written (g : Gains) :
    ∀ (evs : List EventData) (r : EvResult), runEvents g evs = .ok r →
      r.written = evs.filterMap (successOut g) := by
  intro evs
  induction evs with
  | nil =>
    intro r h
    rw [runEvents] at h
    rw [Except.ok.injEq] at h
    rw [← h]
    rfl
  | cons ev rest ih =>
    intro r h
    rw [runEvents] at h
    cases hpe : process_event g ev with
    | error e =>
      rw [hpe] at h
      exact absurd h (by simp)
    | ok res =>
      rw [hpe] at h
      cases hre : runEvents g rest with
      | ok r2 =>
        rw [hre] at h
        rw [Except.ok.injEq] at h
        rw [← h]
        cases res with
        | none => simp [List.filterMap_cons, successOut, hpe, ih r2 hre]
        | some o => simp [List.filterMap_cons, successOut, hpe, ih r2 hre]
      | error r2 =>
        rw [hre] at h
        exact absurd h (by simp)

/-- An event whose pre-gate steps do not raise always yields a boolean from
`process_event` (every later step is inside a handler). -/
lemma process_event_isOk (g : Gains) (ev : EventData)
    (hpre : ev.preGateFail = false) :
    ∃ x, process_event g ev = .ok x := by
  unfold process_event
  rw [if_neg (by simp [hpre])]
  by_cases hc : (eventAcc ev).hits.length > 0 ∧ (eventAcc ev).zles.length > 0
  · rw [if_pos hc]
    exact ⟨_, rfl⟩
  · rw [if_neg hc]
    exact ⟨_, rfl⟩

/-! ## Concrete inputs used by the code-bug theorems and the witnesses -/

/-- Unit gain constants (the gain values are irrelevant to the control-flow
claims). -/
def gW : Gains := ⟨1, 1, 1⟩

/-- An event with a single gate on which `sum_zles` raises
`ValueError("ZLE interval too short")`, while `find_zle_intervals` found one
interval and `find_hits` would find one hit; nothing outside the gates. -/
def evC1 : EventData :=
  { preGateFail := false
    gates := [{ earlyFail := false, zles := [⟨3⟩], sumOutcome := .zleTooShort,
                hitsResult := some [⟨0, 0, 5, 7⟩] }]
    outside := none }

/-- The same event as `evC1` except that `sum_zles` succeeds. -/
def evC1ok : EventData :=
  { preGateFail := false
    gates := [{ earlyFail := false, zles := [⟨3⟩], sumOutcome := .ok,
                hitsResult := some [⟨0, 0, 5, 7⟩] }]
    outside := none }

/-- A one-gate event on which every primitive succeeds. -/
def evW : EventData :=
  { preGateFail := false
    gates := [{ earlyFail := false, zles := [⟨3⟩], sumOutcome := .ok,
                hitsResult := some [⟨0, 2, 5, 7⟩] }]
    outside := none }

/-- Output event `process_event` writes for `evW` under unit gains. -/
def oW : OutEvent := ⟨[⟨3 / 1⟩], [⟨0, 2, 5 / 1, 7 / 1⟩]⟩

/-- An event producing no records at all: no gates, and the outside-gates
extraction raises. -/
def ev0 : EventData := { preGateFail := false, gates := [], outside := none }

/-- An event whose pre-gate steps raise. -/
def evBad : EventData := { preGateFail := true, gates := [], outside := none }

/-! ## Claim theorems -/

/-- C1 (code bug): when `sum_zles` fails with the "ZLE interval too short"
condition, the source executes `continue` (line 67), which skips the *whole*
remainder of the gate's loop body — `find_hits` never runs and the gate's ZLE
and hit records are never appended — contradicting both the claim and the
code's own log message ("Skipping waveform summation.").  On `evC1` (one gate
with one ZLE interval and one extractable hit) the running lists stay empty
and `process_event` returns `False`; the identical event with a succeeding
`sum_zles` returns `True` with the gate's records, isolating the error
condition as the cause. -/
theorem zleTooShort_drops_gate_records :
    process_event gW evC1 = .ok none ∧
    eventAcc evC1 = ⟨[], []⟩ ∧
    process_event gW evC1ok = .ok (some ⟨[⟨3 / 1⟩], [⟨0, 0, 5 / 1, 7 / 1⟩]⟩) :=
  ⟨rfl, rfl, rfl⟩

/-- C2: `process_event` returns `True` exactly when the cumulative `hits` and
`zles` lists are both non-empty by the end of the pipeline, and the caller
writes exactly the events that returned `True`. -/
theorem valid_iff_records_nonempty :
    ∀ (g : Gains) (ev : EventData) (evs : List EventData) (r : EvResult),
    ev.preGateFail = false →
    ((∃ o, process_event g ev = .ok (some o)) ↔
      ((eventAcc ev).hits ≠ [] ∧ (eventAcc ev).zles ≠ [])) ∧
    (runEvents g evs = .ok r → r.written = evs.filterMap (successOut g)) := by
  intro g ev evs r hpre
  exact ⟨process_event_ok_iff g ev hpre, runEvents_ok_written g evs r⟩

/-- Witness for C2: on `evW` the lists are non-empty and `process_event`
succeeds; the two-event pass `[evW, ev0]` writes exactly `evW`'s output. -/
theorem valid_iff_records_nonempty_witness :
    evW.preGateFail = false ∧
    ((∃ o, process_event gW evW = .ok (some o)) ↔
      ((eventAcc evW).hits ≠ [] ∧ (eventAcc evW).zles ≠ [])) ∧
    (⟨[oW], 1, 2⟩ : EvResult).written = [evW, ev0].filterMap (successOut gW) :=
  ⟨rfl,
   (valid_iff_records_nonempty gW evW [evW, ev0] ⟨[oW], 1, 2⟩ rfl).1,
   (valid_iff_records_nonempty gW evW [evW, ev0] ⟨[oW], 1, 2⟩ rfl).2 rfl⟩

/-! ## The zle_id range invariant (claim C3) -/

/-- Proposition that a sequence of per-gate hit batches is correctly offset
against the matching sequence of per-gate ZLE batches: counting global ZLE
indices from `off`, the hits of each batch reference only the ZLE records of
their own batch. -/
def batchesFrom : ℕ → List (List Zle) → List (List Hit) → Prop
  | _, [], [] => True
  | off, zs :: zss, hs :: hss =>
    (∀ h ∈ hs, off ≤ h.zle_id ∧ h.zle_id < off + zs.length) ∧
    batchesFrom (off + zs.length) zss hss
  | _, _ :: _, [] => False
  | _, [], _ :: _ => False

lemma totalZleLen_cons (zs : List Zle) (zss : List (List Zle)) :
    totalZleLen (zs :: zss) = zs.length + totalZleLen zss := by
  simp [totalZleLen]

lemma batchesFrom_append :
    ∀ (off : ℕ) (zss : List (List Zle)) (hss : List (List Hit))
      (zs : List Zle) (hs : List Hit),
    batchesFrom off zss hss →
    (∀ h ∈ hs, off + totalZleLen zss ≤ h.zle_id ∧
       h.zle_id < off + totalZleLen zss + zs.length) →
    batchesFrom off (zss ++ [zs]) (hss ++ [hs]) := by
  intro off zss
  induction zss generalizing off with
  | nil =>
    intro hss zs hs hb hbound
    cases hss with
    | nil =>
      refine ⟨?_, trivial⟩
      intro h hm
      have := hbound h hm
      simp only [totalZleLen, List.map_nil, List.sum_nil] at this
      omega
    | cons a t => exact absurd hb (by simp [batchesFrom])
  | cons z zss ih =>
    intro hss zs hs hb hbound
    cases hss with
    | nil => exact absurd hb (by simp [batchesFrom])
    | cons a t =>
      obtain ⟨h1, h2⟩ := hb
      refine ⟨h1, ih (off + z.length) t zs hs h2 ?_⟩
      intro h hm
      have := hbound h hm
      rw [totalZleLen_cons] at this
      omega

lemma batchesFrom_flatten_lt :
    ∀ (off : ℕ) (zss : List (List Zle)) (hss : List (List Hit)),
    batchesFrom off zss hss →
    ∀ h ∈ hss.flatten, off ≤ h.zle_id ∧ h.zle_id < off + totalZleLen zss := by
  intro off zss
  induction zss generalizing off with
  | nil =>
    intro hss hb h hm
    cases hss with
    | nil => simp at hm
    | cons a t => exact absurd hb (by simp [batchesFrom])
  | cons z zss ih =>
    intro hss hb h hm
    cases hss with
    | nil => exact absurd hb (by simp [batchesFrom])
    | cons a t =>
      obtain ⟨h1, h2⟩ := hb
      rw [List.flatten_cons, List.mem_append] at hm
      rw [totalZleLen_cons]
      rcases hm with hm | hm
      · have := h1 h hm
        omega
      · have := ih (off + z.length) t h2 h hm
        omega

/-- Local well-formedness of the external `find_hits` contract on one gate:
the hit records it returns reference the gate's own ZLE intervals. -/
def gateWF (gd : GateData) : Prop :=
  ∀ h ∈ gd.hitsResult.getD [], h.zle_id < gd.zles.length

/-- Local well-formedness of the external `find_effective_zles_hits` contract
on the outside-gates batch: its hit records reference its own ZLE records. -/
def outsideWF (outside : Option (List Zle × List Hit)) : Prop :=
  ∀ h ∈ (outside.getD ([], [])).2, h.zle_id < (outside.getD ([], [])).1.length

instance : DecidablePred gateWF := fun gd =>
  inferInstanceAs (Decidable (∀ h ∈ gd.hitsResult.getD [], h.zle_id < gd.zles.length))

instance : DecidablePred outsideWF := fun o =>
  inferInstanceAs (Decidable (∀ h ∈ (o.getD ([], [])).2, h.zle_id < (o.getD ([], [])).1.length))

lemma batches_processGate (acc : Acc) (gd : GateData) (hg : gateWF gd)
    (hb : batchesFrom 0 acc.zles acc.hits) :
    batchesFrom 0 (processGate acc gd).zles (processGate acc gd).hits := by
  unfold processGate
  split
  · exact hb
  · cases gd.sumOutcome with
    | zleTooShort => exact hb
    | otherError => exact hb
    | ok =>
      cases hhr : gd.hitsResult with
      | none => exact hb
      | some hs =>
        apply batchesFrom_append 0 acc.zles acc.hits gd.zles _ hb
        intro h hm
        rw [offsetHits, List.mem_map] at hm
        obtain ⟨h0, h0m, rfl⟩ := hm
        unfold gateWF at hg
        rw [hhr, Option.getD_some] at hg
        have := hg h0 h0m
        simp only
        omega

lemma batches_foldl :
    ∀ (gds : List GateData) (acc : Acc), (∀ gd ∈ gds, gateWF gd) →
    batchesFrom 0 acc.zles acc.hits →
    batchesFrom 0 (gds.foldl processGate acc).zles (gds.foldl processGate acc).hits := by
  intro gds
  induction gds with
  | nil => intro acc _ hb; exact hb
  | cons gd rest ih =>
    intro acc hwf hb
    rw [List.foldl_cons]
    exact ih (processGate acc gd) (fun x hx => hwf x (List.mem_cons_of_mem gd hx))
      (batches_processGate acc gd (hwf gd (List.mem_cons_self gd rest)) hb)

lemma batches_processOutside (acc : Acc) (outside : Option (List Zle × List Hit))
    (ho : outsideWF outside)
    (hb : batchesFrom 0 acc.zles acc.hits) :
    batchesFrom 0 (processOutside acc outside).zles (processOutside acc outside).hits := by
  unfold processOutside
  cases hout : outside with
  | none => exact hb
  | some p =>
    obtain ⟨z, hs⟩ := p
    apply batchesFrom_append 0 acc.zles acc.hits z _ hb
    intro h hm
    rw [offsetHits, List.mem_map] at hm
    obtain ⟨h0, h0m, rfl⟩ := hm
    unfold outsideWF at ho
    rw [hout, Option.getD_some] at ho
    simp only at ho
    have := ho h0 h0m
    simp only
    omega

lemma batches_eventAcc (ev : EventData) (h1 : ∀ gd ∈ ev.gates, gateWF gd)
    (h2 : outsideWF ev.outside) :
    batchesFrom 0 (eventAcc ev).zles (eventAcc ev).hits := by
  unfold eventAcc
  exact batches_processOutside _ ev.outside h2
    (batches_foldl ev.gates ⟨[], []⟩ h1 trivial)

/-- C3: on every event `process_event` accepts, the per-batch hit `zle_id`
values are the gate-local ones offset by the total count of previously
accumulated ZLE records (`batchesFrom 0`: the batches reference disjoint,
consecutive global ZLE index ranges, so each `zle_id` names exactly one ZLE
record of the event), every stored hit references a valid index of the stored
ZLE sequence, and the stored hit sequence is sorted so that each adjacent
pair is non-decreasing in the `(zle_id, sample)` key.  The hypotheses are the
contract of the external `find_hits` / `find_effective_zles_hits`: gate-local
`zle_id` values index the gate's own ZLE intervals. -/
theorem zle_id_globally_unique_and_sorted :
    ∀ (g : Gains) (ev : EventData) (o : OutEvent),
    (∀ gd ∈ ev.gates, gateWF gd) →
    outsideWF ev.outside →
    process_event g ev = .ok (some o) →
    batchesFrom 0 (eventAcc ev).zles (eventAcc ev).hits ∧
    (∀ h ∈ o.hits, h.zle_id < o.zles.length) ∧
    List.Chain' hitKeyLE o.hits := by
  intro g ev o h1 h2 hpe
  obtain ⟨hz, hh⟩ := process_event_some g ev o hpe
  have hb := batches_eventAcc ev h1 h2
  refine ⟨hb, ?_, ?_⟩
  · intro h hm
    rw [hh, List.mem_insertionSort, List.mem_map] at hm
    obtain ⟨h0, h0m, rfl⟩ := hm
    have hlt := (batchesFrom_flatten_lt 0 _ _ hb h0 h0m).2
    rw [hz, List.length_map, List.length_flatten]
    simp only [normHit]
    unfold totalZleLen at hlt
    omega
  · rw [hh]
    exact (List.sorted_insertionSort hitKeyLE _).chain'

/-- Concrete two-gate event with an outside-gates batch, exercising the
`zle_id` offsets: gate one contributes two ZLE intervals, gate two and the
outside pass one each. -/
def evS : EventData :=
  { preGateFail := false
    gates := [{ earlyFail := false, zles := [⟨3⟩, ⟨4⟩], sumOutcome := .ok,
                hitsResult := some [⟨1, 5, 2, 2⟩, ⟨0, 1, 2, 2⟩] },
              { earlyFail := false, zles := [⟨6⟩], sumOutcome := .ok,
                hitsResult := some [⟨0, 0, 1, 1⟩] }]
    outside := some ([⟨9⟩], [⟨0, 4, 1, 1⟩]) }

/-- Output event `process_event` writes for `evS` under unit gains: four ZLE
records with global indices 0–3, hits sorted by `(zle_id, sample)`. -/
def oS : OutEvent :=
  ⟨[⟨3 / 1⟩, ⟨4 / 1⟩, ⟨6 / 1⟩, ⟨9 / 1⟩],
   [⟨0, 1, 2 / 1, 2 / 1⟩, ⟨1, 5, 2 / 1, 2 / 1⟩, ⟨2, 0, 1 / 1, 1 / 1⟩, ⟨3, 4, 1 / 1, 1 / 1⟩]⟩

/-- Witness for C3 at `evS`. -/
theorem zle_id_globally_unique_and_sorted_witness :
    (∀ gd ∈ evS.gates, gateWF gd) ∧
    outsideWF evS.outside ∧
    process_event gW evS = .ok (some oS) ∧
    ((∀ h ∈ oS.hits, h.zle_id < oS.zles.length) ∧ List.Chain' hitKeyLE oS.hits) :=
  ⟨by decide, by decide, rfl,
   (zle_id_globally_unique_and_sorted gW evS oS (by decide) (by decide) rfl).2⟩

/-- C4 counterexample: `main` converts the comma-separated sweep tokens with
`float` (line 267), and the f-string at line 164 formats the float `5.0` as
"5.0", so the sweep `--snr 5,10,15` does *not* produce the claimed file names
with bare integers before the extension. -/
theorem output_path_counterexample :
    (parseSweepValues "snr" "5,10,15").map (derive_output_path "events.slc" "daq" "snr") ≠
      ["events_daq_snr_5.slc", "events_daq_snr_10.slc", "events_daq_snr_15.slc"] := by
  decide

/-- C4 (amended): the derived output path is the output base with
`_{section}_{parameter}_{value}` inserted before its extension, where the
value is Python-formatted; since `main` parses the tokens as floats, the sweep
`--snr 5,10,15` over a `.slc` base produces exactly
`<base>_daq_snr_5.0.slc`, `<base>_daq_snr_10.0.slc`,
`<base>_daq_snr_15.0.slc`. -/
theorem output_path_insertion :
    ((parseSweepValues "snr" "5,10,15").map (derive_output_path "events.slc" "daq" "snr") =
      ["events_daq_snr_5.0.slc", "events_daq_snr_10.0.slc", "events_daq_snr_15.0.slc"]) ∧
    ∀ (base sect par : String) (v : PyVal),
      derive_output_path base sect par v =
        pyStem base ++ "_" ++ sect ++ "_" ++ par ++ "_" ++ pyValStr v ++ pySuffix base :=
  ⟨by decide, fun _ _ _ _ => rfl⟩

/-- Command line supplying both `--dcr 100` and `--noise-spectrum white.txt`
and no other sweep flag. -/
def suppliedC5 : String → Option String := fun n =>
  if n = "dcr" then some "100" else if n = "noise_spectrum" then some "white.txt" else none

/-- C5 counterexample: with `--dcr` and `--noise-spectrum` both supplied,
`main` honors `dcr` — its loop iterates `kwargs.items()` (argparse definition
order, `noise_spectrum` last), not the `param_mapping` enumeration order the
claim states (`noise_spectrum` fourth, before `dcr`), which would pick
`noise_spectrum`. -/
theorem first_flag_order_counterexample :
    mainSelect suppliedC5 = some ("sipm", "dcr", [.float 100]) ∧
    claimOrderSelect suppliedC5 = some ("daq", "noise_spectrum", "white.txt") ∧
    (("sipm", "dcr") : String × String) ≠ ("daq", "noise_spectrum") := by
  refine ⟨by decide, by decide, by decide⟩

lemma findSweepAux_skip (supplied : String → Option String) :
    ∀ (pre rest : List String), (∀ m ∈ pre, supplied m = none) →
    findSweepAux ((pre ++ rest).map fun n => (n, supplied n)) =
      findSweepAux (rest.map fun n => (n, supplied n)) := by
  intro pre rest
  induction pre with
  | nil => intro _; rfl
  | cons m pre ih =>
    intro hp
    have hm : supplied m = none := hp m (List.mem_cons_self m pre)
    rw [List.cons_append, List.map_cons]
    rw [show ((m, supplied m) : String × Option String) = (m, none) from by rw [hm]]
    rw [show findSweepAux ((m, none) :: (pre ++ rest).map fun n => (n, supplied n)) =
        findSweepAux ((pre ++ rest).map fun n => (n, supplied n)) from rfl]
    exact ih fun x hx => hp x (List.mem_cons_of_mem m hx)

/-- C5 (amended): when several sweep flags are supplied, exactly one sweep is
run — the first supplied flag in the parsed-arguments iteration order, which
is the argparse definition order `snr, sampling, jitter, dcr, tau,
pre_threshold, post_threshold, pre_trigger, post_trigger, noise_spectrum`
(`sweepArgOrder`), not the `param_mapping` enumeration order; the remaining
supplied flags are silently ignored. -/
theorem first_flag_in_arg_order_wins :
    ∀ (supplied : String → Option String) (pre : List String) (n : String)
      (post : List String) (v sec par : String),
    sweepArgOrder = pre ++ n :: post →
    (∀ m ∈ pre, supplied m = none) →
    supplied n = some v →
    lookupMapping n = some (sec, par) →
    mainSelect supplied = some (sec, par, parseSweepValues par v) := by
  intro supplied pre n post v sec par horder hpre hn hl
  unfold mainSelect
  rw [horder, findSweepAux_skip supplied pre (n :: post) hpre]
  simp only [List.map_cons, findSweepAux, hn, hl]

/-- Command line supplying only `--jitter 5`. -/
def suppliedC5b : String → Option String := fun n =>
  if n = "jitter" then some "5" else none

/-- Witness for the amended C5 at `--jitter 5`: `jitter` is third in
`sweepArgOrder`, the two earlier flags are absent, and `main` selects the
`(daq, jitter)` sweep with values parsed from "5". -/
theorem first_flag_in_arg_order_wins_witness :
    sweepArgOrder = ["snr", "sampling"] ++ "jitter" ::
      ["dcr", "tau", "pre_threshold", "post_threshold", "pre_trigger",
       "post_trigger", "noise_spectrum"] ∧
    (∀ m ∈ ["snr", "sampling"], suppliedC5b m = none) ∧
    suppliedC5b "jitter" = some "5" ∧
    lookupMapping "jitter" = some ("daq", "jitter") ∧
    mainSelect suppliedC5b = some ("daq", "jitter", parseSweepValues "jitter" "5") :=
  ⟨rfl, by decide, rfl, rfl,
   first_flag_in_arg_order_wins suppliedC5b ["snr", "sampling"] "jitter"
     ["dcr", "tau", "pre_threshold", "post_threshold", "pre_trigger",
      "post_trigger", "noise_spectrum"] "5" "daq" "jitter" rfl (by decide) rfl rfl⟩

/-- C6: whenever a sweep-value pass completes its event loop (no exception),
the close calls run and the output file exists afterwards exactly when at
least one event was valid — a zero-valid-events pass deletes the just-created
file. -/
theorem empty_pass_deletes_output :
    ∀ (g : Gains) (evs : List EventData) (r : EvResult),
    runEvents g evs = .ok r →
    (runPass g evs).completed = true ∧
    ((runPass g evs).fileExists = true ↔ 0 < (runPass g evs).validEvents) := by
  intro g evs r h
  unfold runPass
  rw [h]
  simp

/-- Witness for C6: a one-event pass whose only event is invalid completes
with zero valid events, and the output file does not survive it. -/
theorem empty_pass_deletes_output_witness :
    runEvents gW [ev0] = .ok ⟨[], 0, 1⟩ ∧
    ((runPass gW [ev0]).completed = true ∧
     ((runPass gW [ev0]).fileExists = true ↔ 0 < (runPass gW [ev0]).validEvents)) :=
  ⟨rfl, empty_pass_deletes_output gW [ev0] ⟨[], 0, 1⟩ rfl⟩

/-- C7 (code bug): the `fin.close()` / `fout.close()` calls at lines 181–182
sit inside the `try` block with no `finally` and no `with` statement, so on
the error exit path (an exception escaping the event loop into the handler at
lines 192–194) neither the reader nor the writer is closed — the handles
leak, contradicting the stated contract.  Concretely, a pass whose first
event raises in the pre-gate steps ends with both handles open. -/
theorem handles_leak_on_error_path :
    (runPass gW [evBad]).readerClosed = false ∧
    (runPass gW [evBad]).writerClosed = false ∧
    (runPass gW [evBad]).completed = false :=
  ⟨rfl, rfl, rfl⟩

/-- C8: calibration divisors are applied exactly once — the stored ZLE
integrals are the raw accumulated integrals divided once by the ZLE gain
mean, and the stored hits are a permutation (the final sort) of the raw
accumulated hits with `integral` and `max` each divided once by its own gain
mean.  The raw accumulation (`eventAcc`) performs no division anywhere. -/
theorem gains_applied_once :
    ∀ (g : Gains) (ev : EventData) (o : OutEvent),
    process_event g ev = .ok (some o) →
    o.zles = ((eventAcc ev).zles.flatten).map
      (fun z => ⟨z.integral / g.zle_integral_mean⟩) ∧
    List.Perm o.hits (((eventAcc ev).hits.flatten).map
      (fun h => { h with integral := h.integral / g.hit_integral_mean,
                         max := h.max / g.hit_max_mean })) := by
  intro g ev o hpe
  obtain ⟨hz, hh⟩ := process_event_some g ev o hpe
  constructor
  · rw [hz]
    rfl
  · rw [hh]
    exact List.perm_insertionSort hitKeyLE _

/-- Witness for C8 at `evW` under unit gains. -/
theorem gains_applied_once_witness :
    process_event gW evW = .ok (some oW) ∧
    (oW.zles = ((eventAcc evW).zles.flatten).map
      (fun z => ⟨z.integral / gW.zle_integral_mean⟩) ∧
     List.Perm oW.hits (((eventAcc evW).hits.flatten).map
      (fun h => { h with integral := h.integral / gW.hit_integral_mean,
                         max := h.max / gW.hit_max_mean }))) :=
  ⟨rfl, gains_applied_once gW evW oW rfl⟩

/-- C9: `update_config_parameter` coincides everywhere with the fixed
enumerated table of the specification — each known `(section, parameter)`
pair sets exactly the dotted key `section.parameter` to the value converted
to its target type and multiplied by its unit scale, and every unknown
combination changes no configuration key at all (`updateBySpecTable` leaves
`cfg` untouched in its `none` branch, and `Config.set` rewrites only the one
key). -/
theorem config_update_matches_table :
    ∀ (u : Units) (sect param : String) (v : PyVal) (cfg : Config),
    update_config_parameter u sect param v cfg = updateBySpecTable u sect param v cfg := by
  intro u sect param v cfg
  unfold update_config_parameter updateBySpecTable configTable
  split_ifs
  all_goals try (subst_vars; rfl)
  all_goals try (rename_i hor; subst_vars; rcases hor with rfl | rfl <;> rfl)
  all_goals simp_all [findConv]

/-- C10 helper: a pre-gate exception in one event aborts the event loop right
there — the events before it are processed normally, the failing event
consumes one more read, and nothing after it is consumed. -/
lemma runEvents_error_of_bad (g : Gains) :
    ∀ (pre : List EventData) (bad : EventData) (post : List EventData),
    (∀ e ∈ pre, e.preGateFail = false) → bad.preGateFail = true →
    ∃ r : EvResult, runEvents g (pre ++ bad :: post) = .error r ∧
      r.consumed = pre.length + 1 := by
  intro pre
  induction pre with
  | nil =>
    intro bad post _ hbad
    refine ⟨⟨[], 0, 1⟩, ?_, rfl⟩
    have hb : process_event g bad = .error () := by
      unfold process_event
      rw [if_pos hbad]
    rw [List.nil_append]
    simp only [runEvents, hb]
  | cons e pre ih =>
    intro bad post hpre hbad
    obtain ⟨r, hr, hc⟩ := ih bad post (fun x hx => hpre x (List.mem_cons_of_mem e hx)) hbad
    obtain ⟨x, hx⟩ := process_event_isOk g e (hpre e (List.mem_cons_self e pre))
    cases x with
    | none =>
      refine ⟨⟨([] : List OutEvent) ++ r.written, ([] : List OutEvent).length + r.valid,
        r.consumed + 1⟩, ?_, by simp [hc]⟩
      rw [List.cons_append]
      simp only [runEvents, hx, hr]
    | some o =>
      refine ⟨⟨[o] ++ r.written, [o].length + r.valid, r.consumed + 1⟩, ?_, by simp [hc]⟩
      rw [List.cons_append]
      simp only [runEvents, hx, hr]

/-- C10: `process_event` has no event-level exception barrier — an exception
in the pre-gate steps (gate discovery, noise injection, jitter application,
lines 50–52) escapes `process_event` without a boolean result, aborts the
event loop after the events preceding the failing one, and lands in the
per-sweep-value handler: that sweep value's pass ends uncompleted. -/
theorem no_event_level_barrier :
    ∀ (g : Gains) (pre : List EventData) (bad : EventData) (post : List EventData),
    (∀ e ∈ pre, e.preGateFail = false) → bad.preGateFail = true →
    process_event g bad = .error () ∧
    ∃ r : EvResult, runEvents g (pre ++ bad :: post) = .error r ∧
      r.consumed = pre.length + 1 ∧
      (runPass g (pre ++ bad :: post)).completed = false := by
  intro g pre bad post hpre hbad
  constructor
  · unfold process_event
    rw [if_pos hbad]
  · obtain ⟨r, hr, hc⟩ := runEvents_error_of_bad g pre bad post hpre hbad
    refine ⟨r, hr, hc, ?_⟩
    unfold runPass
    rw [hr]

/-- Witness for C10: a three-event pass whose second event raises in the
pre-gate steps consumes exactly two events and leaves the pass uncompleted;
the third event is never read. -/
theorem no_event_level_barrier_witness :
    (∀ e ∈ [evW], e.preGateFail = false) ∧ evBad.preGateFail = true ∧
    (process_event gW evBad = .error () ∧
     ∃ r : EvResult, runEvents gW ([evW] ++ evBad :: [ev0]) = .error r ∧
       r.consumed = [evW].length + 1 ∧
       (runPass gW ([evW] ++ evBad :: [ev0])).completed = false) :=
  ⟨by decide, rfl, no_event_level_barrier gW [evW] evBad [ev0] (by decide) rfl⟩

end DaqSlices
